import Mathlib

/-!
Verification of the column-classifier / value-decomposer core of the
`tresata_assignment` repository.

Python string primitives (`str.strip`, `str.lower`, `str.split`,
`str.rstrip`) are modelled over `List Char` (ASCII semantics).  Calls into
external libraries (`phonenumbers`, `dateutil`, pandas sampling) are
modelled as oracle parameters: the repository treats them as external
collaborators, and the claims under scrutiny quantify over their
behaviour or constrain it by explicit hypotheses.
-/

namespace Tresata

/-- Strip leading and trailing whitespace from a character list. -/
def stripL (l : List Char) : List Char :=
  ((l.dropWhile Char.isWhitespace).reverse.dropWhile Char.isWhitespace).reverse

/-- Model of Python `str.strip()`: drop leading and trailing whitespace. -/
def pyStrip (s : String) : String := ⟨stripL s.data⟩

/-- Uppercase-to-lowercase table for ASCII letters, backing the model of
Python `str.lower()`. -/
def lowerPairs : List (Char × Char) :=
  [('A', 'a'), ('B', 'b'), ('C', 'c'), ('D', 'd'), ('E', 'e'), ('F', 'f'),
   ('G', 'g'), ('H', 'h'), ('I', 'i'), ('J', 'j'), ('K', 'k'), ('L', 'l'),
   ('M', 'm'), ('N', 'n'), ('O', 'o'), ('P', 'p'), ('Q', 'q'), ('R', 'r'),
   ('S', 's'), ('T', 't'), ('U', 'u'), ('V', 'v'), ('W', 'w'), ('X', 'x'),
   ('Y', 'y'), ('Z', 'z')]

/-- Lowercase a single character (ASCII). -/
def lowerChar (c : Char) : Char := (lowerPairs.lookup c).getD c

/-- Model of Python `str.lower()` (ASCII). -/
def pyLower (s : String) : String := ⟨s.data.map lowerChar⟩

/-- Helper for `pySplit`; `acc` holds the current token reversed. -/
def splitAux : List Char → List Char → List String
  | [], acc => if acc.isEmpty then [] else [⟨acc.reverse⟩]
  | c :: rest, acc =>
    if c.isWhitespace then
      if acc.isEmpty then splitAux rest [] else ⟨acc.reverse⟩ :: splitAux rest []
    else
      splitAux rest (c :: acc)

/-- Model of Python `str.split()` with no argument: split on runs of
whitespace, discarding empty tokens. -/
def pySplit (s : String) : List String := splitAux s.data []

/-- Model of Python `str.rstrip(cs)`: drop trailing characters from `cs`. -/
def pyRstrip (cs : List Char) (s : String) : String :=
  ⟨(s.data.reverse.dropWhile (fun c => cs.contains c)).reverse⟩

/-- Model of Python `' '.join(parts)`. -/
def joinSpace (parts : List String) : String :=
  ⟨((parts.map String.data).intersperse [' ']).flatten⟩

/-! ## Company decomposer (src/company_parser.py) -/

/-- `words[i].lower().rstrip('.,;:')` from `CompanyParser.parse`. -/
def normTok (w : String) : String := pyRstrip ['.', ',', ';', ':'] (pyLower w)

/-- The backwards loop of `CompanyParser.parse` (source lines 50-65).  The
first list argument is the word list reversed, so that the Python loop
`for i in range(len(words)-1, -1, -1)` becomes structural recursion;
`foundLegal`, the two accumulator lists and the `break` (which discards
all remaining words) mirror the Python code.  Returns
`(name_parts, legal_parts)`. -/
def companyScan (suff : String → Bool) :
    List String → Bool → List String → List String → List String × List String
  | [], _, legalParts, nameParts => (nameParts, legalParts)
  | w :: rest, foundLegal, legalParts, nameParts =>
    let word := normTok w
    if ¬foundLegal ∧ suff word then
      companyScan suff rest true (word :: legalParts) nameParts
    else if foundLegal then
      if suff word ∨ word = "&" ∨ word = "and" then
        companyScan suff rest true (word :: legalParts) nameParts
      else
        (w :: nameParts, legalParts)
    else
      companyScan suff rest false legalParts (w :: nameParts)

/-- `CompanyParser.parse` (src/company_parser.py lines 31-75).  The
argument `suff w` models membership `w in self.legal_suffixes`. -/
def CompanyParser.parse (suff : String → Bool) (input : String) : String × String :=
  if pyStrip input = "" then ("", "")
  else
    let parts := companyScan suff (pySplit (pyStrip input)).reverse false [] []
    if pyLower (pyStrip (joinSpace parts.2)) = "" then
      (pyLower (pyStrip input), "")
    else
      (pyLower (pyStrip (joinSpace parts.1)), pyLower (pyStrip (joinSpace parts.2)))

/-- The default legal-suffix set of `CompanyParser.load_legal_suffixes`. -/
def defaultLegalSuffixes : List String :=
  ["ltd", "limited", "inc", "incorporated", "corp", "corporation",
   "llc", "gmbh", "ag", "pvt", "private", "co", "kg", "plc",
   "sa", "nv", "bv", "oy", "ab", "as", "spa", "srl", "sl", "slu"]

/-- Membership in the default legal-suffix set. -/
def defaultSuff (w : String) : Bool := defaultLegalSuffixes.contains w

/-! ## Normalization lemmas for the Python string primitives -/

lemma mem_of_lookup {l : List (Char × Char)} {a b : Char} (h : l.lookup a = some b) :
    (a, b) ∈ l := by
  rcases List.lookup_eq_some_iff.mp h with ⟨l₁, l₂, rfl, -⟩
  simp

lemma lowerChar_idem (c : Char) : lowerChar (lowerChar c) = lowerChar c := by
  unfold lowerChar
  cases h : lowerPairs.lookup c with
  | none => simp [h]
  | some d =>
    have hd : d ∈ lowerPairs.map Prod.snd := List.mem_map_of_mem Prod.snd (mem_of_lookup h)
    have hnone : ∀ x ∈ lowerPairs.map Prod.snd, lowerPairs.lookup x = none := by decide
    simp [h, hnone d hd]

lemma isWhitespace_lowerChar (c : Char) : (lowerChar c).isWhitespace = c.isWhitespace := by
  unfold lowerChar
  cases h : lowerPairs.lookup c with
  | none => simp [h]
  | some d =>
    have hm := mem_of_lookup h
    have h1 : ∀ x ∈ lowerPairs.map Prod.snd, x.isWhitespace = false := by decide
    have h2 : ∀ x ∈ lowerPairs.map Prod.fst, x.isWhitespace = false := by decide
    simp [h, h1 d (List.mem_map_of_mem Prod.snd hm), h2 c (List.mem_map_of_mem Prod.fst hm)]

lemma dropWhile_eq_self_of_head {p : Char → Bool} {l : List Char}
    (h : ∀ c, l.head? = some c → p c = false) : l.dropWhile p = l := by
  cases l with
  | nil => rfl
  | cons a t => exact List.dropWhile_cons_of_neg (by simp [h a rfl])

lemma head?_dropWhile_ws {l : List Char} {c : Char}
    (h : (l.dropWhile Char.isWhitespace).head? = some c) : c.isWhitespace = false := by
  have h' := List.head?_dropWhile_not Char.isWhitespace l
  rw [h] at h'
  exact h'

lemma dropWhile_decomp (p : Char → Bool) (l : List Char) :
    ∃ t, l = t ++ l.dropWhile p := by
  induction l with
  | nil => exact ⟨[], rfl⟩
  | cons a t ih =>
    by_cases hp : p a
    · obtain ⟨u, hu⟩ := ih
      exact ⟨a :: u, by rw [List.dropWhile_cons_of_pos hp]; simpa using hu⟩
    · exact ⟨[], by simp [List.dropWhile_cons_of_neg hp]⟩

lemma stripL_head {l : List Char} {c : Char} (h : (stripL l).head? = some c) :
    c.isWhitespace = false := by
  unfold stripL at h
  rw [List.head?_reverse] at h
  obtain ⟨t, ht⟩ := dropWhile_decomp Char.isWhitespace (l.dropWhile Char.isWhitespace).reverse
  have h2 : (l.dropWhile Char.isWhitespace).reverse.getLast? = some c := by
    rw [ht, List.getLast?_append, h]; rfl
  rw [List.getLast?_reverse] at h2
  exact head?_dropWhile_ws h2

lemma stripL_last {l : List Char} {c : Char} (h : (stripL l).reverse.head? = some c) :
    c.isWhitespace = false := by
  unfold stripL at h
  rw [List.reverse_reverse] at h
  exact head?_dropWhile_ws h

lemma stripL_idem (l : List Char) : stripL (stripL l) = stripL l := by
  have e : stripL (stripL l) =
      (((stripL l).dropWhile Char.isWhitespace).reverse.dropWhile Char.isWhitespace).reverse :=
    rfl
  have h1 : (stripL l).dropWhile Char.isWhitespace = stripL l :=
    dropWhile_eq_self_of_head (fun _ hc => stripL_head hc)
  have h2 : (stripL l).reverse.dropWhile Char.isWhitespace = (stripL l).reverse :=
    dropWhile_eq_self_of_head (fun _ hc => stripL_last hc)
  rw [e, h1, h2, List.reverse_reverse]

lemma stripL_map_lower (l : List Char) :
    stripL (l.map lowerChar) = (stripL l).map lowerChar := by
  have hcomp : (Char.isWhitespace ∘ lowerChar) = Char.isWhitespace :=
    funext isWhitespace_lowerChar
  unfold stripL
  rw [List.dropWhile_map, hcomp, ← List.map_reverse, List.dropWhile_map, hcomp,
    ← List.map_reverse]

lemma map_lower_idem (l : List Char) : (l.map lowerChar).map lowerChar = l.map lowerChar := by
  rw [List.map_map]
  congr 1
  funext c
  exact lowerChar_idem c

lemma pyStrip_pyLower_pyStrip (X : String) :
    pyStrip (pyLower (pyStrip X)) = pyLower (pyStrip X) := by
  show String.mk (stripL ((stripL X.data).map lowerChar))
      = String.mk ((stripL X.data).map lowerChar)
  rw [stripL_map_lower, stripL_idem]

lemma pyLower_pyLower (X : String) : pyLower (pyLower X) = pyLower X := by
  show String.mk ((X.data.map lowerChar).map lowerChar) = String.mk (X.data.map lowerChar)
  rw [map_lower_idem]

/-! ## Structure of the company decomposer's output -/

/-- The first component returned by `CompanyParser.parse` is already
stripped and lowercased (every branch of the source produces it by
`.strip().lower()` or `.lower()` of a stripped string). -/
lemma parse_name_normalized (suff : String → Bool) (input : String) :
    pyStrip (CompanyParser.parse suff input).1 = (CompanyParser.parse suff input).1 ∧
    pyLower (CompanyParser.parse suff input).1 = (CompanyParser.parse suff input).1 := by
  unfold CompanyParser.parse
  by_cases h0 : pyStrip input = ""
  · simp only [h0, if_pos]
    constructor <;> rfl
  · rw [if_neg h0]
    by_cases h1 : pyLower (pyStrip (joinSpace
        (companyScan suff (pySplit (pyStrip input)).reverse false [] []).2)) = ""
    · simp only [h1, if_pos]
      exact ⟨pyStrip_pyLower_pyStrip input, pyLower_pyLower (pyStrip input)⟩
    · simp only [h1, if_neg, reduceIte]
      exact ⟨pyStrip_pyLower_pyStrip (joinSpace
          (companyScan suff (pySplit (pyStrip input)).reverse false [] []).1),
        pyLower_pyLower (pyStrip (joinSpace
          (companyScan suff (pySplit (pyStrip input)).reverse false [] []).1))⟩

/-- If no token is a legal-suffix member, the backwards scan of
`CompanyParser.parse` collects every word into `name_parts` and finds no
legal part. -/
lemma companyScan_no_suffix (suff : String → Bool) :
    ∀ ws : List String, (∀ w ∈ ws, suff (normTok w) = false) →
      ∀ acc, companyScan suff ws false [] acc = (ws.reverse ++ acc, []) := by
  intro ws
  induction ws with
  | nil => intro _ acc; simp [companyScan]
  | cons w rest ih =>
    intro h acc
    have hw : suff (normTok w) = false := h w (by simp)
    simp only [companyScan, hw]
    rw [ih (fun x hx => h x (by simp [hx])) (w :: acc)]
    simp

/-- When no token of the (stripped) input is a legal-suffix member,
`CompanyParser.parse` returns the whole trimmed lowercased input with an
empty legal phrase. -/
lemma parse_no_suffix (suff : String → Bool) (input : String)
    (h : ∀ w ∈ pySplit (pyStrip input), suff (normTok w) = false) :
    CompanyParser.parse suff input = (pyLower (pyStrip input), "") := by
  unfold CompanyParser.parse
  by_cases h0 : pyStrip input = ""
  · rw [if_pos h0, h0]
    rfl
  · rw [if_neg h0]
    have hs := companyScan_no_suffix suff (pySplit (pyStrip input)).reverse
      (fun w hw => h w (List.mem_reverse.mp hw)) []
    simp only [hs]
    rfl

/-! ## Claim theorems: company decomposer -/

/-- C1: the claim states that for an input ending in a detected
legal-suffix span, the base name consists of the first non-suffix,
non-conjunction token scanning right-to-left TOGETHER WITH every token
further left, so that
`decompose("Enno Roggemann GmbH & Co. KG") = ("enno roggemann", "gmbh & co kg")`.
The code instead `break`s immediately after moving that single token into
`name_parts`, silently discarding every token further left ("Enno"):
it returns `("roggemann", "gmbh & co kg")`.  This evaluates the embedded
code at the spec's own scenario input, exhibiting the divergence. -/
theorem companyParse_drops_left_tokens :
    CompanyParser.parse defaultSuff "Enno Roggemann GmbH & Co. KG"
        = ("roggemann", "gmbh & co kg") ∧
    CompanyParser.parse defaultSuff "Enno Roggemann GmbH & Co. KG"
        ≠ ("enno roggemann", "gmbh & co kg") := by
  decide

/-- C8: company decompose is idempotent on the returned base name: if the
base name `(CompanyParser.parse suff input).1` contains no remaining
legal-suffix tokens, re-running decompose on it yields `(name, "")`. -/
theorem companyParse_idempotent (suff : String → Bool) (input : String)
    (h : ∀ w ∈ pySplit (CompanyParser.parse suff input).1, suff (normTok w) = false) :
    CompanyParser.parse suff (CompanyParser.parse suff input).1
      = ((CompanyParser.parse suff input).1, "") := by
  obtain ⟨hstrip, hlower⟩ := parse_name_normalized suff input
  have h' : ∀ w ∈ pySplit (pyStrip (CompanyParser.parse suff input).1),
      suff (normTok w) = false := by
    rw [hstrip]; exact h
  rw [parse_no_suffix suff _ h', hstrip, hlower]

/-- Witness for C8 at the spec's Scenario 1: decomposing
`"Tresata pvt ltd."` yields base name `"tresata"`, and re-running the
decomposer on it returns `("tresata", "")`. -/
theorem companyParse_idempotent_witness :
    CompanyParser.parse defaultSuff "tresata" = ("tresata", "") := by
  have h := companyParse_idempotent defaultSuff "Tresata pvt ltd." (by decide)
  have e : (CompanyParser.parse defaultSuff "Tresata pvt ltd.").1 = "tresata" := by decide
  rw [e] at h
  exact h

/-- C9 counterexample: the claim states that a legal-suffix token
appearing only mid-string (not at, nor contiguously extending to, the
trailing token) is NOT detected, the base name then being the whole
trimmed lowercased input with empty legal phrase.  In
`"Foo Ltd Bar"` the suffix token `ltd` appears only mid-string ("foo" and
"bar" are not suffixes), yet the code detects it and returns
`("foo bar", "ltd")`, not `("foo ltd bar", "")`: the right-to-left scan
moves trailing non-suffix tokens into `name_parts` and keeps scanning. -/
theorem companyParse_midstring_counterexample :
    CompanyParser.parse defaultSuff "Foo Ltd Bar" = ("foo bar", "ltd") ∧
    CompanyParser.parse defaultSuff "Foo Ltd Bar" ≠ (pyLower (pyStrip "Foo Ltd Bar"), "") ∧
    pySplit "Foo Ltd Bar" = ["Foo", "Ltd", "Bar"] ∧
    defaultSuff (normTok "Foo") = false ∧
    defaultSuff (normTok "Ltd") = true ∧
    defaultSuff (normTok "Bar") = false := by
  decide

/-- C9 (amended): a mid-string legal-suffix token IS detected by the
scan (trailing non-suffix tokens are collected into the base name before
the span starts); the decomposer returns the whole trimmed lowercased
input with empty legal phrase when NO token (lowercased, trailing
punctuation stripped) is a legal-suffix member. -/
theorem companyParse_no_suffix_whole_input (suff : String → Bool) (input : String)
    (h : ∀ w ∈ pySplit (pyStrip input), suff (normTok w) = false) :
    CompanyParser.parse suff input = (pyLower (pyStrip input), "") :=
  parse_no_suffix suff input h

/-- Witness for the amended C9: `"Hello World"` has no legal-suffix
token, and decomposes to the whole lowercased input with empty legal
phrase. -/
theorem companyParse_no_suffix_whole_input_witness :
    CompanyParser.parse defaultSuff "Hello World" = ("hello world", "") := by
  have h := companyParse_no_suffix_whole_input defaultSuff "Hello World" (by decide)
  rw [h]
  decide

/-! ## Phone decomposer (src/phone_parser.py) -/

/-- Result of a `phonenumbers` parse, as far as `PhoneParser.parse`
consumes it: the validity flag (`is_valid_number`), the detected region
code (`region_code_for_number`) and the national number
(`parsed.national_number`, an integer). -/
structure PhoneResult where
  valid : Bool
  regionCode : String
  nationalNumber : Nat
deriving DecidableEq

/-- `PhoneParser.COUNTRY_MAP` (src/phone_parser.py lines 16-26). -/
def COUNTRY_MAP : List (String × String) :=
  [("IN", "India"), ("US", "US"), ("GB", "UK"), ("CA", "Canada"),
   ("AU", "Australia"), ("DE", "Germany"), ("FR", "France"),
   ("CN", "China"), ("JP", "Japan")]

/-- `self.COUNTRY_MAP.get(country_code, country_code)`. -/
def countryName (code : String) : String := (COUNTRY_MAP.lookup code).getD code

/-- `re.sub(r'[\s\-\(\)\.]', '', s)`: remove whitespace, hyphens,
parentheses and periods. -/
def cleanedOf (s : String) : List Char :=
  s.data.filter (fun c => !(c.isWhitespace || c = '-' || c = '(' || c = ')' || c = '.'))

/-- The manual digit-heuristics fallback of `PhoneParser.parse`
(src/phone_parser.py lines 72-84). -/
def phoneFallback (s : String) : String × String :=
  if ['9', '1'].isPrefixOf (cleanedOf s) ∧ 10 ≤ (cleanedOf s).length then
    ("India", ⟨(cleanedOf s).drop 2⟩)
  else if ['1'].isPrefixOf (cleanedOf s) ∧ (cleanedOf s).length = 11 then
    ("US", ⟨(cleanedOf s).drop 1⟩)
  else if ['4', '4'].isPrefixOf (cleanedOf s) ∧ 10 ≤ (cleanedOf s).length then
    ("UK", ⟨(cleanedOf s).drop 2⟩)
  else ("", ⟨cleanedOf s⟩)

/-- The loop over the default regions `['US', 'IN', 'GB']`
(src/phone_parser.py lines 57-70): the first structurally valid parse
wins; a parse exception (`none`) or an invalid result continues. -/
def regionLoop (parseRegion : String → String → Option PhoneResult) (s : String) :
    List String → Option (String × String)
  | [] => none
  | reg :: rest =>
    match parseRegion s reg with
    | some r =>
      if r.valid then some (countryName r.regionCode, toString r.nationalNumber)
      else regionLoop parseRegion s rest
    | none => regionLoop parseRegion s rest

/-- `PhoneParser.parse` (src/phone_parser.py lines 28-84).  `parseNone s`
models `phonenumbers.parse(s, None)` with `none` standing for a raised
exception; `parseRegion s reg` models `phonenumbers.parse(s, reg)`.  A
successful but invalid region-agnostic parse falls through to the
default-region loop, then to the manual fallback, as in the source. -/
def PhoneParser.parse (parseNone : String → Option PhoneResult)
    (parseRegion : String → String → Option PhoneResult) (input : String) :
    String × String :=
  if pyStrip input = "" then ("", "")
  else
    let step1 : Option (String × String) :=
      match parseNone (pyStrip input) with
      | some r =>
        if r.valid then some (countryName r.regionCode, toString r.nationalNumber)
        else none
      | none => none
    match step1 with
    | some res => res
    | none =>
      match regionLoop parseRegion (pyStrip input) ["US", "IN", "GB"] with
      | some res => res
      | none => phoneFallback (pyStrip input)

/-- When every default-region parse attempt raises or is invalid, the
region loop yields nothing. -/
lemma regionLoop_eq_none (parseRegion : String → String → Option PhoneResult)
    (s : String) :
    ∀ regs : List String,
      (∀ reg ∈ regs, ∀ r, parseRegion s reg = some r → r.valid = false) →
      regionLoop parseRegion s regs = none := by
  intro regs
  induction regs with
  | nil => intro _; rfl
  | cons reg rest ih =>
    intro h
    unfold regionLoop
    cases hp : parseRegion s reg with
    | none => exact ih fun x hx => h x (by simp [hx])
    | some r =>
      have hv := h reg (by simp) r hp
      simp only [hv, Bool.false_eq_true, if_false]
      exact ih fun x hx => h x (by simp [hx])

/-! ## Claim theorems: phone decomposer -/

/-- C6: when every structured parse attempt fails (raises or yields an
invalid number), `PhoneParser.parse` strips whitespace, hyphens,
parentheses and periods and applies the digit heuristics: ("India",
digits after the first 2) for a "91" prefix with length ≥ 10, ("US",
digits after the first 1) for a "1" prefix with length exactly 11,
("UK", digits after the first 2) for a "44" prefix with length ≥ 10, and
("", cleaned) otherwise. -/
theorem phoneParse_fallback (parseNone : String → Option PhoneResult)
    (parseRegion : String → String → Option PhoneResult) (input : String)
    (h1 : ∀ r, parseNone (pyStrip input) = some r → r.valid = false)
    (h2 : ∀ reg ∈ (["US", "IN", "GB"] : List String), ∀ r,
      parseRegion (pyStrip input) reg = some r → r.valid = false) :
    PhoneParser.parse parseNone parseRegion input =
      (if ['9', '1'].isPrefixOf (cleanedOf (pyStrip input)) ∧
          10 ≤ (cleanedOf (pyStrip input)).length then
        ("India", String.mk ((cleanedOf (pyStrip input)).drop 2))
      else if ['1'].isPrefixOf (cleanedOf (pyStrip input)) ∧
          (cleanedOf (pyStrip input)).length = 11 then
        ("US", String.mk ((cleanedOf (pyStrip input)).drop 1))
      else if ['4', '4'].isPrefixOf (cleanedOf (pyStrip input)) ∧
          10 ≤ (cleanedOf (pyStrip input)).length then
        ("UK", String.mk ((cleanedOf (pyStrip input)).drop 2))
      else ("", String.mk (cleanedOf (pyStrip input)))) := by
  by_cases h0 : pyStrip input = ""
  · unfold PhoneParser.parse
    rw [if_pos h0, h0]
    decide
  · unfold PhoneParser.parse
    rw [if_neg h0]
    have hloop := regionLoop_eq_none parseRegion (pyStrip input) ["US", "IN", "GB"] h2
    cases hp : parseNone (pyStrip input) with
    | none => simp only [hp, hloop, phoneFallback]
    | some r =>
      have hv := h1 r hp
      simp only [hp, hv, Bool.false_eq_true, if_false, hloop, phoneFallback]

/-- Witness for C6 at the spec's Scenario 4: with oracles on which every
structured attempt raises, `"4853859590"` (10 digits, no 91/1/44 match)
decomposes to `("", "4853859590")`. -/
theorem phoneParse_fallback_witness :
    PhoneParser.parse (fun _ => none) (fun _ _ => none) "4853859590"
      = ("", "4853859590") := by
  have h := phoneParse_fallback (fun _ => none) (fun _ _ => none) "4853859590"
    (fun _ hr => nomatch hr) (fun _ _ _ hr => nomatch hr)
  rw [h]
  decide

/-- C7: when the region-agnostic structured parse succeeds with a
structurally valid number whose region code is one of the nine
`COUNTRY_MAP` entries, decompose returns the mapped display name and the
national digit string (the number with its calling code stripped). -/
theorem phoneParse_structured_known_region (parseNone : String → Option PhoneResult)
    (parseRegion : String → String → Option PhoneResult) (input : String)
    (r : PhoneResult) (name : String)
    (hne : pyStrip input ≠ "")
    (hparse : parseNone (pyStrip input) = some r)
    (hvalid : r.valid = true)
    (hmap : COUNTRY_MAP.lookup r.regionCode = some name) :
    PhoneParser.parse parseNone parseRegion input = (name, toString r.nationalNumber) := by
  unfold PhoneParser.parse
  rw [if_neg hne]
  simp only [hparse, hvalid, if_true]
  unfold countryName
  rw [hmap]
  rfl

/-- Witness for C7 at the spec's Scenario 3: with the oracle behaving as
the real library does on `"+91 9876543210"` (valid, region "IN",
national number 9876543210), decompose returns `("India", "9876543210")`. -/
theorem phoneParse_structured_known_region_witness :
    PhoneParser.parse
      (fun s => if s = "+91 9876543210" then some ⟨true, "IN", 9876543210⟩ else none)
      (fun _ _ => none) "+91 9876543210" = ("India", "9876543210") := by
  have h := phoneParse_structured_known_region
    (fun s => if s = "+91 9876543210" then some ⟨true, "IN", 9876543210⟩ else none)
    (fun _ _ => none) "+91 9876543210" ⟨true, "IN", 9876543210⟩ "India"
    (by decide) (by decide) rfl (by decide)
  rw [h]
  decide

/-! ## Column classifier (src/semantic_classifier.py) -/

/-- The four per-value recognizers of `SemanticClassifier`, as oracle
parameters: `is_phone_number` and `is_date` call into `phonenumbers` and
`dateutil`, and `is_company_name` calls back into them, so the
classifier is modelled over arbitrary recognizer behaviour. -/
structure Recognizers where
  isPhone : String → Bool
  isDate : String → Bool
  isCountry : String → Bool
  isCompany : String → Bool

/-- The `if/elif` cascade of `classify_column` (source lines 167-177):
fixed precedence Phone Number → Date → Country → Company Name → Other,
first match wins, so each value lands in exactly one bucket. -/
def bucketOf (R : Recognizers) (v : String) : String :=
  if R.isPhone v then "Phone Number"
  else if R.isDate v then "Date"
  else if R.isCountry v then "Country"
  else if R.isCompany v then "Company Name"
  else "Other"

/-- Keys of the `scores` dict in insertion order (source lines 155-161). -/
def scoreLabels : List String :=
  ["Phone Number", "Company Name", "Country", "Date", "Other"]

/-- `scores[k]`: how many sampled values fall into bucket `k`. -/
def scoreOf (R : Recognizers) (sample : List String) (k : String) : Nat :=
  sample.countP (fun v => bucketOf R v == k)

/-- `probabilities = {k: v / total for k, v in scores.items()}` as an
ordered association list (Python dicts preserve insertion order). -/
def probabilities (R : Recognizers) (sample : List String) : List (String × ℚ) :=
  scoreLabels.map fun k => (k, (scoreOf R sample k : ℚ) / (sample.length : ℚ))

/-- One step of Python's `max`: the running maximum is replaced only by a
strictly greater key value, so the first maximum in iteration order is
kept. -/
def pymaxStep (acc y : String × ℚ) : String × ℚ := if acc.2 < y.2 then y else acc

/-- Python `max(probabilities, key=probabilities.get)` over an ordered
association list (never called on `[]` by the classifier). -/
def pymaxKey : List (String × ℚ) → String × ℚ
  | [] => ("Other", 0)
  | x :: xs => xs.foldl pymaxStep x

/-- The sampling step of `classify_column` (source lines 151-153):
`sampleFn n data` models `column_data.sample(n=n, random_state=42)`, the
fixed-seed pandas sampler, taken when the non-missing count exceeds the
sample size `min 1000 count`. -/
def sampleOf (sampleFn : Nat → List String → List String)
    (columnData : List String) : List String :=
  if columnData.length > min 1000 columnData.length then
    sampleFn (min 1000 columnData.length) columnData
  else columnData

/-- `SemanticClassifier.classify_column` (source lines 140-186) on the
non-missing values of one column (`df[column_name].dropna()` happens at
the boundary, so `columnData` is already missing-free; each sampled
value passes through `str(value)`, so values are strings). -/
def classify_column (R : Recognizers) (sampleFn : Nat → List String → List String)
    (columnData : List String) : String × ℚ :=
  if columnData.length = 0 then ("Other", 0)
  else if (sampleOf sampleFn columnData).length = 0 then ("Other", 0)
  else pymaxKey (probabilities R (sampleOf sampleFn columnData))

/-- Contract of the pandas sampler: `Series.sample(n=n, random_state=42)`
returns exactly `n` values when `n` does not exceed the population. -/
def SamplerSpec (sampleFn : Nat → List String → List String) : Prop :=
  ∀ n l, n ≤ l.length → (sampleFn n l).length = n

/-! ### Classifier lemmas -/

lemma bucketOf_cases (R : Recognizers) (v : String) :
    bucketOf R v = "Phone Number" ∨ bucketOf R v = "Date" ∨ bucketOf R v = "Country" ∨
      bucketOf R v = "Company Name" ∨ bucketOf R v = "Other" := by
  unfold bucketOf
  split_ifs <;> simp

/-- Each sampled value is counted in exactly one bucket, so the five
bucket counts partition the sample. -/
lemma scoreOf_sum (R : Recognizers) (sample : List String) :
    scoreOf R sample "Phone Number" + scoreOf R sample "Company Name" +
      scoreOf R sample "Country" + scoreOf R sample "Date" +
      scoreOf R sample "Other" = sample.length := by
  induction sample with
  | nil => rfl
  | cons v rest ih =>
    unfold scoreOf at ih ⊢
    simp only [List.countP_cons, List.length_cons]
    rcases bucketOf_cases R v with h | h | h | h | h <;> rw [h] <;> simp <;> omega

lemma length_ne_zero_cast {sample : List String} (h : sample ≠ []) :
    (sample.length : ℚ) ≠ 0 := by
  have : sample.length ≠ 0 := fun hh => h (List.length_eq_zero.mp hh)
  exact_mod_cast this

/-- The five probabilities sum to 1 for a nonempty sample. -/
lemma probabilities_snd_sum (R : Recognizers) (sample : List String) (h : sample ≠ []) :
    ((probabilities R sample).map Prod.snd).sum = 1 := by
  have hlen := length_ne_zero_cast h
  unfold probabilities scoreLabels
  simp only [List.map_cons, List.map_nil, List.sum_cons, List.sum_nil, add_zero]
  rw [div_add_div_same, div_add_div_same, div_add_div_same, div_add_div_same,
    div_eq_one_iff_eq hlen]
  have hsum := scoreOf_sum R sample
  norm_cast
  omega

/-- Each probability lies in [0, 1]. -/
lemma probabilities_snd_bounds (R : Recognizers) (sample : List String) :
    ∀ p ∈ probabilities R sample, 0 ≤ p.2 ∧ p.2 ≤ 1 := by
  intro p hp
  unfold probabilities at hp
  rcases List.mem_map.mp hp with ⟨k, _, rfl⟩
  refine ⟨by positivity, ?_⟩
  rcases Nat.eq_zero_or_pos sample.length with h0 | h0
  · simp [h0]
  · rw [div_le_one (by exact_mod_cast h0)]
    exact_mod_cast List.countP_le_length _

/-- Python's `max` returns the first element attaining the maximum: the
fold result splits the list into a strict-below prefix, itself, and a
weak-below remainder. -/
lemma pymax_decomp (xs : List (String × ℚ)) :
    ∀ x : String × ℚ,
      ∃ l₁ l₂, x :: xs = l₁ ++ (xs.foldl pymaxStep x) :: l₂ ∧
        (∀ z ∈ l₁, z.2 < (xs.foldl pymaxStep x).2) ∧
        (∀ z ∈ l₂, z.2 ≤ (xs.foldl pymaxStep x).2) := by
  induction xs with
  | nil =>
    intro x
    exact ⟨[], [], rfl, by simp, by simp⟩
  | cons y ys ih =>
    intro x
    simp only [List.foldl_cons]
    by_cases hxy : x.2 < y.2
    · rw [show pymaxStep x y = y from if_pos hxy]
      obtain ⟨l₁, l₂, heq, hlt, hle⟩ := ih y
      refine ⟨x :: l₁, l₂, ?_, ?_, hle⟩
      · rw [List.cons_append, ← heq]
      · intro z hz
        rcases List.mem_cons.mp hz with rfl | hz'
        · have hy : y.2 ≤ (ys.foldl pymaxStep y).2 := by
            have hmem : y ∈ l₁ ++ (ys.foldl pymaxStep y) :: l₂ := by
              rw [← heq]; simp
            rcases List.mem_append.mp hmem with hm | hm
            · exact le_of_lt (hlt _ hm)
            · rcases List.mem_cons.mp hm with hm2 | hm3
              · exact le_of_eq (congrArg Prod.snd hm2)
              · exact hle _ hm3
          exact lt_of_lt_of_le hxy hy
        · exact hlt z hz'
    · rw [show pymaxStep x y = x from if_neg hxy]
      obtain ⟨l₁, l₂, heq, hlt, hle⟩ := ih x
      rcases l₁ with _ | ⟨a, l₁'⟩
      · rw [List.nil_append] at heq
        have hx := (List.cons.inj heq).1
        have hys := (List.cons.inj heq).2
        refine ⟨[], y :: ys, ?_, by simp, ?_⟩
        · rw [List.nil_append, ← hx]
        · intro z hz
          rcases List.mem_cons.mp hz with rfl | h3
          · rw [← hx]; exact le_of_not_lt hxy
          · exact hle _ (hys ▸ h3)
      · rw [List.cons_append] at heq
        have ha := (List.cons.inj heq).1
        have hys := (List.cons.inj heq).2
        have hxlt : x.2 < (ys.foldl pymaxStep x).2 := ha ▸ hlt a (by simp)
        refine ⟨x :: y :: l₁', l₂, ?_, ?_, hle⟩
        · rw [List.cons_append, List.cons_append, ← hys]
        · intro z hz
          rcases List.mem_cons.mp hz with rfl | hz'
          · exact hxlt
          · rcases List.mem_cons.mp hz' with rfl | hz''
            · exact lt_of_le_of_lt (le_of_not_lt hxy) hxlt
            · exact hlt z (by simp [hz''])

/-- `find?` with the maximal value hits the fold result first. -/
lemma find?_first_max (c : String × ℚ) :
    ∀ l₁ l₂ : List (String × ℚ), (∀ z ∈ l₁, z.2 < c.2) →
      (l₁ ++ c :: l₂).find? (fun z => decide (z.2 = c.2)) = some c := by
  intro l₁
  induction l₁ with
  | nil =>
    intro l₂ _
    simp [List.find?_cons]
  | cons a t ih =>
    intro l₂ h
    have ha : ¬a.2 = c.2 := ne_of_lt (h a (by simp))
    rw [List.cons_append, List.find?_cons_of_neg _ (by simpa using ha)]
    exact ih l₂ fun z hz => h z (by simp [hz])

lemma sampleOf_ne_nil (sampleFn : Nat → List String → List String)
    (data : List String) (hne : data ≠ []) (hs : SamplerSpec sampleFn) :
    sampleOf sampleFn data ≠ [] := by
  unfold sampleOf
  have hlen : data.length ≠ 0 := fun hh => hne (List.length_eq_zero.mp hh)
  by_cases hgt : data.length > min 1000 data.length
  · rw [if_pos hgt]
    intro hnil
    have := hs (min 1000 data.length) data (by omega)
    rw [hnil] at this
    simp at this
    omega
  · rw [if_neg hgt]
    exact hne

lemma classify_column_eq (R : Recognizers) (sampleFn : Nat → List String → List String)
    (data : List String) (hne : data ≠ []) (hs : SamplerSpec sampleFn) :
    classify_column R sampleFn data
      = pymaxKey (probabilities R (sampleOf sampleFn data)) := by
  unfold classify_column
  have h1 : data.length ≠ 0 := fun hh => hne (List.length_eq_zero.mp hh)
  have h2 : (sampleOf sampleFn data).length ≠ 0 := fun hh =>
    sampleOf_ne_nil sampleFn data hne hs (List.length_eq_zero.mp hh)
  rw [if_neg h1, if_neg h2]

/-- The classifier's result over a nonempty sample is the first-maximal
entry of the probabilities list. -/
lemma pymax_probabilities_spec (R : Recognizers) (sample : List String) :
    (probabilities R sample).find?
        (fun z => decide (z.2 = (pymaxKey (probabilities R sample)).2))
      = some (pymaxKey (probabilities R sample)) ∧
    ∀ z ∈ probabilities R sample, z.2 ≤ (pymaxKey (probabilities R sample)).2 := by
  have hshape : ∃ p₀ rest, probabilities R sample = p₀ :: rest := by
    unfold probabilities scoreLabels
    simp
  obtain ⟨p₀, rest, hshape⟩ := hshape
  rw [hshape]
  have hfold : pymaxKey (p₀ :: rest) = rest.foldl pymaxStep p₀ := rfl
  rw [hfold]
  obtain ⟨l₁, l₂, heq, hlt, hle⟩ := pymax_decomp rest p₀
  constructor
  · rw [heq]
    exact find?_first_max _ l₁ l₂ hlt
  · intro z hz
    rw [heq] at hz
    rcases List.mem_append.mp hz with hm | hm
    · exact le_of_lt (hlt _ hm)
    · rcases List.mem_cons.mp hm with hm2 | hm3
      · rw [hm2]
      · exact hle _ hm3

/-! ## Claim theorems: column classifier -/

/-- C2: for a column with at least one non-missing value, each sampled
value is counted in exactly one label bucket under the fixed precedence
Phone Number → Date → Country → Company Name → Other (first recognizer
match wins, short-circuiting: `bucketOf` lands in exactly one entry of
`scoreLabels`), so the five per-label probabilities each lie in [0, 1]
and sum to 1. -/
theorem classify_probabilities_partition (R : Recognizers) (sample : List String)
    (h : sample ≠ []) :
    (∀ v ∈ sample, scoreLabels.countP (fun k => bucketOf R v == k) = 1) ∧
    (∀ p ∈ probabilities R sample, 0 ≤ p.2 ∧ p.2 ≤ 1) ∧
    ((probabilities R sample).map Prod.snd).sum = 1 := by
  refine ⟨?_, probabilities_snd_bounds R sample, probabilities_snd_sum R sample h⟩
  intro v _
  rcases bucketOf_cases R v with hb | hb | hb | hb | hb <;> rw [hb] <;> decide

/-- All-false recognizer oracle (every value lands in the Other bucket). -/
def constFalseRecognizers : Recognizers :=
  ⟨fun _ => false, fun _ => false, fun _ => false, fun _ => false⟩

/-- Witness for C2 on the one-value column `["x"]`. -/
theorem classify_probabilities_partition_witness :
    (∀ v ∈ (["x"] : List String),
      scoreLabels.countP (fun k => bucketOf constFalseRecognizers v == k) = 1) ∧
    (∀ p ∈ probabilities constFalseRecognizers ["x"], 0 ≤ p.2 ∧ p.2 ≤ 1) ∧
    ((probabilities constFalseRecognizers ["x"]).map Prod.snd).sum = 1 :=
  classify_probabilities_partition constFalseRecognizers ["x"] (by decide)

/-- C3: a column with no non-missing values classifies as ("Other", 0);
with at most 1000 non-missing values the scored sample is exactly the
column's values in original order; with more, the scored sample is the
fixed-seed sampler's pick of exactly 1000 values (`sampleFn` models
pandas `.sample(n=1000, random_state=42)`, whose contract `SamplerSpec`
returns exactly the requested count). -/
theorem classify_sampling (R : Recognizers) (sampleFn : Nat → List String → List String)
    (data : List String) (hs : SamplerSpec sampleFn) :
    (data = [] → classify_column R sampleFn data = ("Other", 0)) ∧
    (data.length ≤ 1000 → sampleOf sampleFn data = data) ∧
    (1000 < data.length →
      sampleOf sampleFn data = sampleFn 1000 data ∧
      (sampleOf sampleFn data).length = 1000) := by
  refine ⟨?_, ?_, ?_⟩
  · intro h
    rw [h]
    rfl
  · intro h
    unfold sampleOf
    rw [if_neg (by omega)]
  · intro h
    unfold sampleOf
    have hmin : min 1000 data.length = 1000 := by omega
    rw [hmin, if_pos (by omega)]
    exact ⟨rfl, hs 1000 data (by omega)⟩

/-- Sampler instance for witnesses: take the first `n` values. -/
def takeSampler (n : Nat) (l : List String) : List String := l.take n

lemma takeSampler_spec : SamplerSpec takeSampler := by
  intro n l h
  simp [takeSampler]
  omega

/-- Witness for C3: the empty column yields ("Other", 0); a 1-value
column is sampled whole; a 1001-value column is sampled down to exactly
1000 values. -/
theorem classify_sampling_witness :
    classify_column constFalseRecognizers takeSampler [] = ("Other", 0) ∧
    sampleOf takeSampler ["a"] = ["a"] ∧
    (sampleOf takeSampler (List.replicate 1001 "x")).length = 1000 :=
  ⟨(classify_sampling constFalseRecognizers takeSampler [] takeSampler_spec).1 rfl,
   (classify_sampling constFalseRecognizers takeSampler ["a"] takeSampler_spec).2.1
     (by decide),
   ((classify_sampling constFalseRecognizers takeSampler (List.replicate 1001 "x")
     takeSampler_spec).2.2 (by rw [List.length_replicate]; omega)).2⟩

/-- C4: the classifier's result is the FIRST entry of the probabilities
list — in the fixed insertion order Phone Number, Company Name, Country,
Date, Other — whose probability equals the returned (maximal)
confidence; in particular, when two or more labels tie for the maximal
probability, the returned label is the tied label that comes first in
that enumeration order. -/
theorem classify_tie_break (R : Recognizers) (sampleFn : Nat → List String → List String)
    (data : List String) (hne : data ≠ []) (hs : SamplerSpec sampleFn) :
    classify_column R sampleFn data
        = pymaxKey (probabilities R (sampleOf sampleFn data)) ∧
    (probabilities R (sampleOf sampleFn data)).find?
        (fun z => decide (z.2 = (classify_column R sampleFn data).2))
      = some (classify_column R sampleFn data) ∧
    ∀ z ∈ probabilities R (sampleOf sampleFn data),
      z.2 ≤ (classify_column R sampleFn data).2 := by
  have he := classify_column_eq R sampleFn data hne hs
  rw [he]
  exact ⟨rfl, (pymax_probabilities_spec R (sampleOf sampleFn data)).1,
    (pymax_probabilities_spec R (sampleOf sampleFn data)).2⟩

/-- Recognizer oracle producing a genuine tie: "p" is a phone, "d" is a
date, so on `["p", "d"]` Phone Number and Date both score 1/2. -/
def tieRecognizers : Recognizers :=
  ⟨fun v => v == "p", fun v => v == "d", fun _ => false, fun _ => false⟩

/-- Witness for C4: on `["p", "d"]`, Phone Number and Date tie at 1/2 and
the earlier label in enumeration order, Phone Number, is returned. -/
theorem classify_tie_break_witness :
    classify_column tieRecognizers takeSampler ["p", "d"] = ("Phone Number", 1/2) := by
  have h := (classify_tie_break tieRecognizers takeSampler ["p", "d"]
    (by decide) takeSampler_spec).1
  have hsamp : sampleOf takeSampler ["p", "d"] = ["p", "d"] := by decide
  rw [h, hsamp]
  have s1 : scoreOf tieRecognizers ["p", "d"] "Phone Number" = 1 := by decide
  have s2 : scoreOf tieRecognizers ["p", "d"] "Company Name" = 0 := by decide
  have s3 : scoreOf tieRecognizers ["p", "d"] "Country" = 0 := by decide
  have s4 : scoreOf tieRecognizers ["p", "d"] "Date" = 1 := by decide
  have s5 : scoreOf tieRecognizers ["p", "d"] "Other" = 0 := by decide
  unfold probabilities scoreLabels
  simp only [List.map_cons, List.map_nil, s1, s2, s3, s4, s5, List.length_cons,
    List.length_nil]
  norm_num [pymaxKey, pymaxStep, List.foldl_cons, List.foldl_nil]

/-- C10: for a column with at least one non-missing value the returned
confidence is at least 0.2 = 1/5: every sampled value falls into exactly
one of the five buckets, so the probabilities sum to 1 and the argmax
bucket holds at least a fifth of the sample. -/
theorem classify_confidence_ge (R : Recognizers)
    (sampleFn : Nat → List String → List String) (data : List String)
    (hne : data ≠ []) (hs : SamplerSpec sampleFn) :
    (1 : ℚ) / 5 ≤ (classify_column R sampleFn data).2 := by
  have he := classify_column_eq R sampleFn data hne hs
  rw [he]
  have hsample := sampleOf_ne_nil sampleFn data hne hs
  have hsum := probabilities_snd_sum R (sampleOf sampleFn data) hsample
  have hmax := (pymax_probabilities_spec R (sampleOf sampleFn data)).2
  have hbound : ((probabilities R (sampleOf sampleFn data)).map Prod.snd).sum ≤
      ((probabilities R (sampleOf sampleFn data)).map Prod.snd).length •
        (pymaxKey (probabilities R (sampleOf sampleFn data))).2 := by
    apply List.sum_le_card_nsmul
    intro x hx
    rcases List.mem_map.mp hx with ⟨z, hz, rfl⟩
    exact hmax z hz
  have hlen : ((probabilities R (sampleOf sampleFn data)).map Prod.snd).length = 5 := by
    unfold probabilities scoreLabels
    simp
  rw [hsum, hlen, nsmul_eq_mul] at hbound
  push_cast at hbound
  linarith

/-- Witness for C10 on the one-value column `["x"]`. -/
theorem classify_confidence_ge_witness :
    (1 : ℚ) / 5 ≤ (classify_column constFalseRecognizers takeSampler ["x"]).2 :=
  classify_confidence_ge constFalseRecognizers takeSampler ["x"] (by decide)
    takeSampler_spec

/-! ## Date recognizer (src/semantic_classifier.py, is_date) -/

/-- Match exactly `n` ASCII digits, returning the remaining characters. -/
def chompDigits : Nat → List Char → Option (List Char)
  | 0, cs => some cs
  | _ + 1, [] => none
  | n + 1, c :: cs => if c.isDigit then chompDigits n cs else none

/-- The regex `^\d{4}-\d{2}-\d{2}$` (pattern `YYYY-MM-DD`). -/
def matchYmdDash (s : String) : Bool :=
  match chompDigits 4 s.data with
  | some ('-' :: r1) =>
    match chompDigits 2 r1 with
    | some ('-' :: r2) => chompDigits 2 r2 == some []
    | _ => false
  | _ => false

/-- The regex `^\d{2}/\d{2}/\d{4}$` (pattern `MM/DD/YYYY`). -/
def matchMdySlash (s : String) : Bool :=
  match chompDigits 2 s.data with
  | some ('/' :: r1) =>
    match chompDigits 2 r1 with
    | some ('/' :: r2) => chompDigits 4 r2 == some []
    | _ => false
  | _ => false

/-- The regex `^\d{2}-\d{2}-\d{4}$` (pattern `MM-DD-YYYY`). -/
def matchMdyDash (s : String) : Bool :=
  match chompDigits 2 s.data with
  | some ('-' :: r1) =>
    match chompDigits 2 r1 with
    | some ('-' :: r2) => chompDigits 4 r2 == some []
    | _ => false
  | _ => false

/-- The regex `^\d{4}/\d{2}/\d{2}$` (pattern `YYYY/MM/DD`). -/
def matchYmdSlash (s : String) : Bool :=
  match chompDigits 4 s.data with
  | some ('/' :: r1) =>
    match chompDigits 2 r1 with
    | some ('/' :: r2) => chompDigits 2 r2 == some []
    | _ => false
  | _ => false

/-- `\w` of Python `re` (ASCII model): letters, digits, underscore. -/
def isWordChar (c : Char) : Bool := c.isAlphanum || c == '_'

/-- Consume one-or-more characters satisfying `p` (maximal run): the
model of a greedy `+` whose follow-up character class is disjoint from
`p`, as is the case in the pattern below (`\s`/`\w`/`\d` alternate). -/
def chompRun1 (p : Char → Bool) : List Char → Option (List Char)
  | [] => none
  | c :: cs => if p c then some (cs.dropWhile p) else none

/-- The regex `^\d{1,2}\s+\w+\s+\d{4}$` (pattern `DD Month YYYY`); the
leading `\d{1,2}` takes at most two digits greedily, which coincides
with regex backtracking semantics because `\s` matches no digit. -/
def matchDayMonthYear (s : String) : Bool :=
  match s.data with
  | c :: rest =>
    if c.isDigit then
      let rest2 := match rest with
        | c2 :: r2 => if c2.isDigit then r2 else rest
        | [] => []
      match chompRun1 Char.isWhitespace rest2 with
      | some r1 =>
        match chompRun1 isWordChar r1 with
        | some r2 =>
          match chompRun1 Char.isWhitespace r2 with
          | some r3 => chompDigits 4 r3 == some []
          | none => false
        | none => false
      | none => false
    else false
  | [] => false

/-- The five literal patterns of `is_date` (source lines 77-83), in
source order. -/
def datePatterns : List (String → Bool) :=
  [matchYmdDash, matchMdySlash, matchMdyDash, matchYmdSlash, matchDayMonthYear]

/-- The `for pattern in date_patterns` loop of `is_date` (source lines
85-91): return `true` as soon as a matching pattern's strict parse
succeeds; a failing strict parse falls through to the next pattern. -/
def datePatternAccept (strict : String → Bool) (v : String) :
    List (String → Bool) → Bool
  | [] => false
  | p :: ps =>
    if p v then (if strict v then true else datePatternAccept strict v ps)
    else datePatternAccept strict v ps

/-- `SemanticClassifier.is_date` (source lines 67-100); `strict v` models
`date_parser.parse(v, fuzzy=False)` succeeding and `fuzzy v` models
`date_parser.parse(v, fuzzy=True)` succeeding. -/
def is_date (strict fuzzy : String → Bool) (value : String) : Bool :=
  if pyStrip value = "" then false
  else if datePatternAccept strict (pyStrip value) datePatterns then true
  else fuzzy (pyStrip value)

/-- Whether the control flow of `is_date` reaches the fuzzy parse
attempt (`date_parser.parse(value, fuzzy=True)`, source line 95): it
does exactly when the pattern loop falls through without returning. -/
def dateReachesFuzzy (strict : String → Bool) (value : String) : Bool :=
  if pyStrip value = "" then false
  else !datePatternAccept strict (pyStrip value) datePatterns

/-- A failing strict parse means the pattern loop can never accept. -/
lemma datePatternAccept_of_strict_false {strict : String → Bool} {v : String}
    (h : strict v = false) :
    ∀ ps, datePatternAccept strict v ps = false := by
  intro ps
  induction ps with
  | nil => rfl
  | cons p t ih =>
    unfold datePatternAccept
    rw [h, ih]
    split <;> rfl

/-! ## Claim theorems: date recognizer -/

/-- C5 counterexample: the claim's second half states the fuzzy parse is
attempted ONLY when none of the five literal patterns match.  On
`"99/99/9999"` the `MM/DD/YYYY` pattern matches; with a strict parser
that (like a calendar parser seeing month 99) fails on it, the loop
falls through and the fuzzy attempt IS reached — and a succeeding fuzzy
parse then accepts the value, which under the claim (no fuzzy attempt,
no pattern-path acceptance) would have been rejected. -/
theorem is_date_fuzzy_counterexample :
    dateReachesFuzzy (fun _ => false) "99/99/9999" = true ∧
    datePatterns.any (fun p => p "99/99/9999") = true ∧
    is_date (fun _ => false) (fun _ => true) "99/99/9999" = true := by
  decide

/-- C5 (amended): (a) if a pattern matches but the strict parse fails,
the value is not accepted via the pattern path (as the claim states);
(b) the fuzzy parse attempt is made whenever NO pattern match is
confirmed by the strict parse — in particular also when a pattern
matched but the strict parse failed, not only when no pattern matches —
and the result is then exactly the fuzzy outcome. -/
theorem is_date_pattern_path (strict fuzzy : String → Bool) (value : String) :
    (strict (pyStrip value) = false →
      datePatternAccept strict (pyStrip value) datePatterns = false) ∧
    (dateReachesFuzzy strict value = true ↔
      pyStrip value ≠ "" ∧
        datePatternAccept strict (pyStrip value) datePatterns = false) ∧
    (dateReachesFuzzy strict value = true →
      is_date strict fuzzy value = fuzzy (pyStrip value)) := by
  refine ⟨fun h => datePatternAccept_of_strict_false h datePatterns, ?_, ?_⟩
  · unfold dateReachesFuzzy
    by_cases h0 : pyStrip value = "" <;> simp [h0]
  · intro hr
    unfold dateReachesFuzzy at hr
    by_cases h0 : pyStrip value = ""
    · rw [if_pos h0] at hr
      exact absurd hr (by simp)
    · rw [if_neg h0] at hr
      unfold is_date
      rw [if_neg h0, if_neg (by simpa using hr)]

/-- Witness for the amended C5: `"hello"` matches no pattern, the fuzzy
attempt is reached, and with a succeeding fuzzy oracle `is_date`
accepts. -/
theorem is_date_pattern_path_witness :
    is_date (fun _ => false) (fun _ => true) "hello" = true := by
  have h := (is_date_pattern_path (fun _ => false) (fun _ => true) "hello").2.2 (by decide)
  rw [h]

end Tresata
